import Mathlib

/-!
Verification of the Sony A6000 Monitor application logic.

This file gives a shallow embedding, in Lean, of the algorithmic parts of the
application — the aspect-ratio guide cycling (ControlPanel), the chroma-key
alpha mask (LiveView), the double-clap audio trigger (AudioMonitor), the
recording filename policy and recorder-error path (App), and the teleprompter
tokenizer / speech-to-script aligner and voice-activity detector
(Teleprompter) — together with theorems settling the specification's claims
about them.  Each definition is translated from the corresponding TypeScript
source; machine strings are modelled as lists of characters and JavaScript
floating-point comparisons over the small values involved are modelled over ℚ.
-/

namespace A6000

/-! ### Aspect-ratio guides (ControlPanel.tsx, `toggleGuide`) -/

/-- The `AspectRatioGuide` union type from `types.ts`:
`'none' | '9:16' | '4:5' | '1:1'`. -/
inductive AspectRatioGuide where
  | none
  | r9x16
  | r4x5
  | r1x1
deriving DecidableEq

/-- `toggleGuide` from `ControlPanel.tsx`: cycles
none → 9:16 → 4:5 → 1:1 and everything else (i.e. 1:1) back to none. -/
def toggleGuide : AspectRatioGuide → AspectRatioGuide
  | .none => .r9x16
  | .r9x16 => .r4x5
  | .r4x5 => .r1x1
  | .r1x1 => .none

/-! ### Chroma-key alpha mask (LiveView.tsx, `processFrame`) -/

/-- One RGBA pixel of the frame buffer (each channel a byte value). -/
structure Pixel where
  r : ℕ
  g : ℕ
  b : ℕ
  a : ℕ
deriving DecidableEq

/-- The per-pixel body of the green-screen loop in `processFrame`
(LiveView.tsx): `if (g > 100 && g > r * 1.5 && g > b * 1.5) alpha := 0`. -/
def chromaPixel (p : Pixel) : Pixel :=
  if 100 < p.g ∧ (p.r : ℚ) * 1.5 < (p.g : ℚ) ∧ (p.b : ℚ) * 1.5 < (p.g : ℚ) then
    { p with a := 0 }
  else p

/-- The whole-frame pass of `processFrame`: the pixel rule applied to every
pixel of the RGBA buffer. -/
def processFrame (frame : List Pixel) : List Pixel :=
  frame.map chromaPixel

/-- The masking condition as the specification words it: green channel
greater than 100, and green greater than 1.5 times red and 1.5 times blue. -/
def chromaSpecCond (p : Pixel) : Prop :=
  100 < p.g ∧ (3 / 2 : ℚ) * p.r < p.g ∧ (3 / 2 : ℚ) * p.b < p.g

instance (p : Pixel) : Decidable (chromaSpecCond p) := by
  unfold chromaSpecCond; infer_instance

/-! ### Double-clap trigger (ControlPanel.tsx source part, `draw` in
`AudioMonitor`) -/

/-- One step of the double-clap detector in the `draw` loop of
`AudioMonitor`.  Inputs: the enable flag, the frame's peak amplitude, the
current time `now` (ms) and the stored timestamp `last`
(`lastClapTimeRef.current`).  Returns the new stored timestamp and whether
the trigger fired this frame. -/
def clapStep (enabled : Bool) (peak : ℚ) (now last : ℤ) : ℤ × Bool :=
  if enabled && decide (mkRat 3 5 < peak) then
    if 100 < now - last then
      if now - last < 800 then (0, true)
      else (now, false)
    else (last, false)
  else (last, false)

/-- The claim's reading of the detector, for comparison with `clapStep`:
a qualifying transient strictly less than 100 ms after the stored timestamp
is ignored; a qualifying non-debounced transient within 800 ms (read
inclusively) fires and resets the timestamp to zero; otherwise the
transient's time is stored. -/
def clapStepClaim (enabled : Bool) (peak : ℚ) (now last : ℤ) : ℤ × Bool :=
  if enabled && decide (mkRat 3 5 < peak) then
    if now - last < 100 then (last, false)
    else if now - last ≤ 800 then (0, true)
    else (now, false)
  else (last, false)

/-- The amended reading: the debounce ignores a qualifying transient
occurring 100 ms or less after the stored timestamp, and the pairing window
is strictly below 800 ms. -/
def clapStepAmended (enabled : Bool) (peak : ℚ) (now last : ℤ) : ℤ × Bool :=
  if enabled && decide (mkRat 3 5 < peak) then
    if now - last ≤ 100 then (last, false)
    else if now - last < 800 then (0, true)
    else (now, false)
  else (last, false)

/-- Run the enabled detector over a list of frames, each a pair of a time
(ms) and a peak amplitude, starting from the initial stored timestamp 0;
returns the final stored timestamp and the number of triggers fired. -/
def clapRun (frames : List (ℤ × ℚ)) : ℤ × ℕ :=
  frames.foldl
    (fun acc f =>
      let step := clapStep true f.2 f.1 acc.1
      (step.1, acc.2 + if step.2 then 1 else 0))
    (0, 0)

/-! ### Recording session (App component in the sources): filename policy on
stop and the recorder-error path -/

/-- A planned shot from `types.ts`: identifier, name, completion flag and
take counter. -/
structure Shot where
  id : String
  name : String
  completed : Bool
  take : ℕ
deriving DecidableEq

/-- Character-level worker for `String.replace(/\s+/g, '_')`: every maximal
run of whitespace becomes a single underscore.  The flag records whether the
previous character was part of a whitespace run already rewritten. -/
def rwAux : Bool → List Char → List Char
  | _, [] => []
  | prevWs, c :: cs =>
    if c.isWhitespace then
      if prevWs then rwAux true cs else '_' :: rwAux true cs
    else c :: rwAux false cs

/-- `name.replace(/\s+/g, '_')` from the stop handler in the App component. -/
def replaceWs (s : String) : String :=
  ⟨rwAux false s.data⟩

/-- `String(n).padStart(2, '0')` as used on month, day, hour and minute. -/
def pad2 (n : ℕ) : String :=
  if n < 10 then "0" ++ toString n else toString n

/-- The fields of a JavaScript `Date` read by the stop handler; `month0` is
the zero-based `getMonth()` value. -/
structure JsDate where
  year : ℕ
  month0 : ℕ
  day : ℕ
  hours : ℕ
  minutes : ℕ

/-- The `YYYYMMDD_HHMM` timestamp built in the `onstop` handler:
year, zero-padded month+1 and day, an underscore, zero-padded hours and
minutes. -/
def slateTimestamp (d : JsDate) : String :=
  toString d.year ++ pad2 (d.month0 + 1) ++ pad2 d.day ++ "_" ++
    pad2 d.hours ++ pad2 d.minutes

/-- The filename policy of the `onstop` handler in the App component: if a
shot is selected (found by id), the filename is the shot's name with
whitespace runs replaced by underscores followed by `_Take{take}`, and that
shot's take counter is incremented in the shot list; otherwise the filename
is `A6000_REC_{timestamp}` and the list is unchanged.  Returns the filename
and the updated shot list. -/
def recFilename (shots : List Shot) (activeShotId : Option String)
    (now : JsDate) : String × List Shot :=
  match shots.find? (fun s => activeShotId == some s.id) with
  | some shot =>
      (replaceWs shot.name ++ "_Take" ++ toString shot.take,
       shots.map (fun s => if s.id == shot.id then { s with take := s.take + 1 } else s))
  | Option.none => ("A6000_REC" ++ "_" ++ slateTimestamp now, shots)

/-- The recording-session state touched by `stopRecording` in the App
component: whether the media recorder is inactive, the `isRecording` flag,
and whether the duration interval timer is running. -/
structure RecorderSession where
  recorderInactive : Bool
  isRecording : Bool
  timerActive : Bool
deriving DecidableEq

/-- Side effects observable by the user, produced by a handler: messages
logged to the developer console and messages shown as blocking alerts. -/
structure HandlerFx where
  consoleMsgs : List String
  alerts : List String
deriving DecidableEq

/-- `stopRecording` from the App component: stops the recorder if it is not
already inactive, clears the `isRecording` flag and cancels the duration
timer. -/
def stopRecording (_s : RecorderSession) : RecorderSession :=
  { recorderInactive := true, isRecording := false, timerActive := false }

/-- The `recorder.onerror` handler from `startRecording`: logs the error to
the console and calls `stopRecording`; it shows no alert. -/
def onRecorderError (s : RecorderSession) : RecorderSession × HandlerFx :=
  (stopRecording s, { consoleMsgs := ["Recorder error:"], alerts := [] })

/-- The `catch` branch of `startRecording`, for contrast: a recorder start
failure both logs and raises a user-visible alert. -/
def onStartFailure (msg : String) : HandlerFx :=
  { consoleMsgs := ["Failed to start recording:"],
    alerts := ["Failed to start recording: " ++ msg] }

/-! ### Teleprompter (Teleprompter component in the sources): tokenizer and
speech-to-script aligner -/

/-- A word-character in the sense of the JavaScript regex class `\w`:
a Latin letter, a digit or an underscore. -/
def isWordChar (c : Char) : Bool :=
  decide (('a' ≤ c ∧ c ≤ 'z') ∨ ('A' ≤ c ∧ c ≤ 'Z') ∨ ('0' ≤ c ∧ c ≤ '9') ∨ c = '_')

/-- Worker for `text.split(/(\s+)/)`: a JavaScript split on a captured
whitespace run keeps the separators, so the result alternates (possibly
empty) non-whitespace pieces with whitespace runs.  `inWs` records whether
the run being collected (in `acc`, reversed) is a whitespace run. -/
def splitCapAux (inWs : Bool) (acc : List Char) : List Char → List (List Char)
  | [] => [acc.reverse]
  | c :: cs =>
    if c.isWhitespace == inWs then splitCapAux inWs (c :: acc) cs
    else acc.reverse :: splitCapAux (!inWs) [c] cs

/-- `text.split(/(\s+)/)` from the `words` memo of the Teleprompter. -/
def splitCap (text : List Char) : List (List Char) :=
  splitCapAux false [] text

/-- The `words` memo of the Teleprompter:
`text.split(/(\s+)/).filter(w => w.trim().length > 0)` — keep only the
pieces containing some non-whitespace character. -/
def wordsOf (text : List Char) : List (List Char) :=
  (splitCap text).filter (fun w => w.any (fun c => !c.isWhitespace))

/-- The tokenization as the specification words it: split the script on
whitespace and discard the empty tokens. -/
def tokensSpec (text : List Char) : List (List Char) :=
  (text.splitOnP Char.isWhitespace).filter (fun w => !w.isEmpty)

/-- `scriptWord.toLowerCase().replace(/[^\w\s]/g, '')` from
`matchTextToScript`: case-fold the token, then drop every character that is
neither a word-character nor whitespace. -/
def cleanToken (w : List Char) : List Char :=
  (w.map Char.toLower).filter (fun c => isWordChar c || c.isWhitespace)

/-- Decidable prefix test on character lists (`isPrefixB n h` iff `n` is a
prefix of `h`). -/
def isPrefixB : List Char → List Char → Bool
  | [], _ => true
  | _ :: _, [] => false
  | a :: as, b :: bs => a == b && isPrefixB as bs

/-- `hay.includes(needle)` for strings: `needle` occurs contiguously in
`hay`. -/
def containsB (needle : List Char) : List Char → Bool
  | [] => needle.isEmpty
  | b :: bs => isPrefixB needle (b :: bs) || containsB needle bs

/-- The fuzzy-match test of `matchTextToScript`:
`scriptWord === lastSpokenWord || (scriptWord.length > 3 &&
lastSpokenWord.includes(scriptWord))`, with `scriptWord` already cleaned by
`cleanToken`. -/
def wordMatches (scriptWord spoken : List Char) : Bool :=
  let sw := cleanToken scriptWord
  sw == spoken || (decide (3 < sw.length) && containsB sw spoken)

/-- `transcript.split(' ')` followed by taking the last element, as in
`matchTextToScript` (a JavaScript split on `' '` cuts at every single space
and keeps empty pieces, and the split of any string is nonempty). -/
def lastSpokenWord (transcript : List Char) : List Char :=
  (transcript.splitOnP (· == ' ')).getLastD []

/-- The `for` loop of `matchTextToScript`, scanning indices
`i, i+1, …` (`fuel` many of them) and returning the first index whose
script token fuzzily matches the spoken word. -/
def scanFrom (ws : List (List Char)) (spoken : List Char) : ℕ → ℕ → Option ℕ
  | _, 0 => Option.none
  | i, fuel + 1 =>
    if wordMatches (ws.getD i []) spoken then some i
    else scanFrom ws spoken (i + 1) fuel

/-- `matchTextToScript` from the Teleprompter: take the last word of the
transcript, scan the script tokens from the cursor forward over a window of
at most 50 tokens (clipped to the token count), and move the cursor to the
first match; leave it unchanged when there is none. -/
def matchTextToScript (ws : List (List Char)) (cursor : ℕ)
    (transcript : List Char) : ℕ :=
  let spoken := lastSpokenWord transcript
  let endIndex := min ws.length (cursor + 50)
  (scanFrom ws spoken cursor (endIndex - cursor)).getD cursor

/-- The matching rule as the specification words it: the candidate script
token, case-folded and with punctuation (characters that are neither
word-characters nor whitespace) stripped, matches the spoken word exactly
when they are equal, or when the script token's length is greater than 3 and
the spoken word contains the script token as a contiguous substring. -/
def specMatches (scriptWord spoken : List Char) : Prop :=
  cleanToken scriptWord = spoken ∨
    (3 < (cleanToken scriptWord).length ∧ cleanToken scriptWord <:+: spoken)

instance (w s : List Char) : Decidable (specMatches w s) := by
  unfold specMatches; infer_instance

/-- The script state of the Teleprompter: the free text and the alignment
cursor (`currentWordIndex`); the token list is the derived `wordsOf text`. -/
structure ScriptState where
  text : List Char
  cursor : ℕ
deriving DecidableEq

/-- The script-edit handler (the textarea's `onChange`): it stores the new
text — and nothing else; in particular `currentWordIndex` is not written. -/
def editScript (s : ScriptState) (newText : List Char) : ScriptState :=
  { s with text := newText }

/-- A transcript update in smart mode: the cursor moves by
`matchTextToScript` over the tokens of the current text. -/
def transcriptUpdate (s : ScriptState) (transcript : List Char) : ScriptState :=
  { s with cursor := matchTextToScript (wordsOf s.text) s.cursor transcript }

/-- The demonstration script of the alignment claims. -/
def demoScript : List Char := "one two three two four".toList

/-! ### Voice-activity detector (Teleprompter component, `analyze`, volume
mode) -/

/-- The activation threshold of the volume mode:
`55 - sensitivity * 0.4`. -/
def vaThreshold (sensitivity : ℚ) : ℚ :=
  55 - sensitivity * (2 / 5)

/-- The state touched by `analyze`: the `voiceActive` flag and, when a
deactivation is pending, the absolute time (ms) at which the armed 600 ms
`setTimeout` fires (`silenceTimerRef`). -/
structure VAState where
  active : Bool
  deadline : Option ℕ
deriving DecidableEq

/-- The body of one `analyze` frame at time `t` with average energy `e`
(timer firing aside): above the threshold, set `voiceActive` and cancel any
pending timer; at or below it, arm a 600 ms deactivation timer when none is
pending and the voice is currently active. -/
def vaFrame (T : ℚ) (t : ℕ) (e : ℚ) (st : VAState) : VAState :=
  if T < e then { active := true, deadline := Option.none }
  else if st.deadline.isNone && st.active then { st with deadline := some (t + 600) }
  else st

/-- Fire the pending deactivation timer, if due at time `t`: `voiceActive`
becomes false and the timer is cleared; the returned list records the
transition (time, new value). -/
def vaExpire (t : ℕ) (st : VAState) : VAState × List (ℕ × Bool) :=
  match st.deadline with
  | some d =>
      if d ≤ t then ({ active := false, deadline := Option.none }, [(d, false)])
      else (st, [])
  | Option.none => (st, [])

/-- One scheduling step at a frame `(t, e)`: any due timer fires first, then
the frame body runs; a false→true change of `voiceActive` is recorded as a
rising edge at the frame's time. -/
def vaStep (T : ℚ) (st : VAState) (f : ℕ × ℚ) : VAState × List (ℕ × Bool) :=
  let fired := vaExpire f.1 st
  let st' := vaFrame T f.1 f.2 fired.1
  (st', fired.2 ++ if st'.active && !fired.1.active then [(f.1, true)] else [])

/-- Fold the frame steps over a list of frames, accumulating the edge
trace. -/
def vaFold (T : ℚ) (init : VAState × List (ℕ × Bool))
    (frames : List (ℕ × ℚ)) : VAState × List (ℕ × Bool) :=
  frames.foldl
    (fun acc f =>
      let step := vaStep T acc.1 f
      (step.1, acc.2 ++ step.2))
    init

/-- Run the detector over a list of frames (each a time and an average
energy) from the idle state, letting any still-pending timer fire at the
end; returns the edge trace: every change of `voiceActive`, with its
time. -/
def vaRun (T : ℚ) (frames : List (ℕ × ℚ)) : List (ℕ × Bool) :=
  let out := vaFold T ({ active := false, deadline := Option.none }, []) frames
  match out.1.deadline with
  | some d => out.2 ++ [(d, false)]
  | Option.none => out.2

/-! ### Helper lemmas -/

theorem isPrefixB_iff (n h : List Char) : isPrefixB n h = true ↔ n <+: h := by
  induction n generalizing h with
  | nil => simp [isPrefixB]
  | cons a as ih =>
    cases h with
    | nil => simp [isPrefixB]
    | cons b bs =>
      simp [isPrefixB, ih, List.cons_prefix_cons, Bool.and_eq_true, beq_iff_eq]

theorem containsB_iff (n h : List Char) : containsB n h = true ↔ n <:+: h := by
  induction h with
  | nil => simp [containsB, List.isEmpty_iff]
  | cons b bs ih =>
    rw [containsB, Bool.or_eq_true, isPrefixB_iff, ih, List.infix_cons_iff]

theorem containsB_eq_decide (n h : List Char) :
    containsB n h = decide (n <:+: h) := by
  rcases hb : containsB n h with _ | _
  · simp [← containsB_iff, hb]
  · simp [← containsB_iff, hb]

theorem beq_eq_decide (a b : List Char) : (a == b) = decide (a = b) := by
  by_cases h : a = b
  · simp [h]
  · simp [h, beq_false_of_ne h]

theorem wordMatches_eq_specMatches (w s : List Char) :
    wordMatches w s = decide (specMatches w s) := by
  show (cleanToken w == s || _) = _
  unfold specMatches
  rw [containsB_eq_decide, beq_eq_decide]
  simp

theorem scanFrom_eq_find? (ws : List (List Char)) (spoken : List Char) :
    ∀ (fuel i : ℕ),
      scanFrom ws spoken i fuel =
        (List.range' i fuel).find? (fun j => wordMatches (ws.getD j []) spoken) := by
  intro fuel
  induction fuel with
  | zero => intro i; rfl
  | succ n ih =>
    intro i
    rw [List.range'_succ, scanFrom]
    rcases hm : wordMatches (ws.getD i []) spoken with _ | _
    · rw [List.find?_cons_of_neg _ (by simpa using hm), ih, if_neg (by simp)]
    · rw [List.find?_cons_of_pos _ (by simpa using hm), if_pos rfl]

/-! ### Claim theorems -/

/-- C10: the aspect-ratio guide toggle advances cyclically in the fixed
order none → 9:16 → 4:5 → 1:1 → none, so four applications of `toggleGuide`
return any guide to its starting value. -/
theorem guide_toggle_cycles :
    (∀ g, toggleGuide (toggleGuide (toggleGuide (toggleGuide g))) = g) ∧
    toggleGuide .none = .r9x16 ∧ toggleGuide .r9x16 = .r4x5 ∧
    toggleGuide .r4x5 = .r1x1 ∧ toggleGuide .r1x1 = .none := by
  refine ⟨fun g => ?_, rfl, rfl, rfl, rfl⟩
  cases g <;> rfl

/-- C7: the chroma-key pass leaves red, green and blue of every pixel
unchanged and sets alpha to 0 exactly when g > 100 ∧ g > 1.5·r ∧ g > 1.5·b,
leaving the alpha of non-matching pixels unchanged; pixel (10,200,10) is
masked and (150,160,150) is not. -/
theorem chroma_mask_correct :
    (∀ (frame : List Pixel) (i : ℕ),
      ((processFrame frame).getD i ⟨0, 0, 0, 0⟩).r = (frame.getD i ⟨0, 0, 0, 0⟩).r ∧
      ((processFrame frame).getD i ⟨0, 0, 0, 0⟩).g = (frame.getD i ⟨0, 0, 0, 0⟩).g ∧
      ((processFrame frame).getD i ⟨0, 0, 0, 0⟩).b = (frame.getD i ⟨0, 0, 0, 0⟩).b ∧
      ((processFrame frame).getD i ⟨0, 0, 0, 0⟩).a =
        (if chromaSpecCond (frame.getD i ⟨0, 0, 0, 0⟩) then 0
         else (frame.getD i ⟨0, 0, 0, 0⟩).a)) ∧
    chromaPixel ⟨10, 200, 10, 255⟩ = ⟨10, 200, 10, 0⟩ ∧
    chromaPixel ⟨150, 160, 150, 255⟩ = ⟨150, 160, 150, 255⟩ := by
  have hpx : ∀ p : Pixel, chromaPixel p =
      if chromaSpecCond p then { p with a := 0 } else p := by
    intro p
    unfold chromaPixel chromaSpecCond
    refine if_congr (and_congr_right fun _ => ?_) rfl rfl
    have h15 : (1.5 : ℚ) = 3 / 2 := by norm_num
    rw [h15, mul_comm ((p.r : ℚ)) ((3 : ℚ) / 2), mul_comm ((p.b : ℚ)) ((3 : ℚ) / 2)]
  refine ⟨fun frame i => ?_,
    by rw [chromaPixel, if_pos (by norm_num)],
    by rw [chromaPixel, if_neg (by norm_num)]⟩
  have hmap : (processFrame frame).getD i ⟨0, 0, 0, 0⟩ =
      (frame[i]?.map chromaPixel).getD ⟨0, 0, 0, 0⟩ := by
    rw [processFrame, List.getD_eq_getElem?_getD, List.getElem?_map]
  rw [hmap, List.getD_eq_getElem?_getD]
  rcases hq : frame[i]? with _ | p
  · simp [chromaSpecCond]
  · simp only [Option.map_some', Option.getD_some, hpx p]
    split <;> simp_all

/-- C1 (counterexample): for the script "one two three two four" with
cursor 2, a transcript update whose last spoken word is "two" does not leave
the cursor at 2 — the forward window finds "two" ahead at index 3, so the
cursor becomes 3. -/
theorem alignment_two_moves_to_three :
    matchTextToScript (wordsOf demoScript) 2 ("two".toList) = 3 ∧ (3 : ℕ) ≠ 2 := by
  exact ⟨by decide, by decide⟩

/-- C1 (amended): spoken "three" moves the cursor from 0 to 2; the
subsequent spoken "two" does not move the cursor backward to the earlier
occurrence at index 1 — it is found ahead, at index 3 of the forward window,
so the cursor becomes 3. -/
theorem alignment_demo_script :
    transcriptUpdate ⟨demoScript, 0⟩ ("three".toList) = ⟨demoScript, 2⟩ ∧
    transcriptUpdate ⟨demoScript, 2⟩ ("two".toList) = ⟨demoScript, 3⟩ ∧
    2 ≤ 3 := by
  exact ⟨by decide, by decide, by decide⟩

/-- C5: on a transcript update only the last word of the fragment is
compared; the cursor moves to the first index in the 50-token forward window
whose token (case-folded, punctuation stripped) equals the spoken word or,
having length greater than 3, occurs in the spoken word as a substring —
and stays put when there is none. -/
theorem matching_rule_first_match_wins :
    (∀ (ws : List (List Char)) (cursor : ℕ) (transcript : List Char),
      matchTextToScript ws cursor transcript =
        ((List.range' cursor (min ws.length (cursor + 50) - cursor)).find?
            (fun j => decide (specMatches (ws.getD j []) (lastSpokenWord transcript)))).getD
          cursor) ∧
    (∀ (ws : List (List Char)) (cursor : ℕ) (t₁ t₂ : List Char),
      lastSpokenWord t₁ = lastSpokenWord t₂ →
      matchTextToScript ws cursor t₁ = matchTextToScript ws cursor t₂) := by
  constructor
  · intro ws cursor transcript
    unfold matchTextToScript
    dsimp only
    have hpred : (fun j => wordMatches (ws.getD j []) (lastSpokenWord transcript)) =
        (fun j => decide (specMatches (ws.getD j []) (lastSpokenWord transcript))) :=
      funext fun j => wordMatches_eq_specMatches _ _
    rw [scanFrom_eq_find?, hpred]
  · intro ws cursor t₁ t₂ h
    unfold matchTextToScript
    rw [h]

/-- Witness for C5: two transcripts sharing the last word "three" give the
same cursor on the demonstration script. -/
theorem matching_rule_first_match_wins_witness :
    lastSpokenWord ("uno three".toList) = lastSpokenWord ("three".toList) ∧
    matchTextToScript (wordsOf demoScript) 0 ("uno three".toList) =
      matchTextToScript (wordsOf demoScript) 0 ("three".toList) := by
  refine ⟨by decide, ?_⟩
  exact matching_rule_first_match_wins.2 (wordsOf demoScript) 0
    ("uno three".toList) ("three".toList) (by decide)

/-- C6: across every transcript update the cursor is monotonically
non-decreasing; a moved cursor lands on a matching token inside the
50-token forward window, and when no token of the window matches, the
cursor is unchanged. -/
theorem cursor_monotone :
    (∀ (ws : List (List Char)) (cursor : ℕ) (t : List Char),
      cursor ≤ matchTextToScript ws cursor t) ∧
    (∀ (ws : List (List Char)) (cursor : ℕ) (t : List Char),
      matchTextToScript ws cursor t = cursor ∨
        (matchTextToScript ws cursor t < min ws.length (cursor + 50) ∧
          wordMatches (ws.getD (matchTextToScript ws cursor t) [])
            (lastSpokenWord t) = true)) ∧
    (∀ (ws : List (List Char)) (cursor : ℕ) (t : List Char),
      (∀ j, cursor ≤ j → j < min ws.length (cursor + 50) →
        wordMatches (ws.getD j []) (lastSpokenWord t) = false) →
      matchTextToScript ws cursor t = cursor) := by
  have hchar : ∀ (ws : List (List Char)) (cursor : ℕ) (t : List Char),
      matchTextToScript ws cursor t = cursor ∨
        (cursor ≤ matchTextToScript ws cursor t ∧
          matchTextToScript ws cursor t < min ws.length (cursor + 50) ∧
          wordMatches (ws.getD (matchTextToScript ws cursor t) [])
            (lastSpokenWord t) = true) := by
    intro ws cursor t
    unfold matchTextToScript
    dsimp only
    rw [scanFrom_eq_find?]
    rcases hf : (List.range' cursor (min ws.length (cursor + 50) - cursor)).find?
        (fun j => wordMatches (ws.getD j []) (lastSpokenWord t)) with _ | j
    · exact Or.inl rfl
    · simp only [Option.getD_some]
      refine Or.inr ?_
      have hj := List.find?_some hf
      have hmem := List.mem_of_find?_eq_some hf
      rw [List.mem_range'_1] at hmem
      exact ⟨hmem.1, by omega, by simpa using hj⟩
  refine ⟨fun ws cursor t => ?_, fun ws cursor t => ?_, fun ws cursor t hnone => ?_⟩
  · rcases hchar ws cursor t with h | h
    · omega
    · exact h.1
  · rcases hchar ws cursor t with h | h
    · exact Or.inl h
    · exact Or.inr ⟨h.2.1, h.2.2⟩
  · rcases hchar ws cursor t with h | h
    · exact h
    · exact absurd h.2.2 (by rw [hnone _ h.1 h.2.1]; simp)

/-- Witness for C6: on the demonstration script at cursor 2 with the unknown
spoken word "zzz", no window token matches and the cursor is unchanged. -/
theorem cursor_monotone_witness :
    (∀ j, 2 ≤ j → j < min (wordsOf demoScript).length (2 + 50) →
      wordMatches ((wordsOf demoScript).getD j [])
        (lastSpokenWord ("zzz".toList)) = false) ∧
    matchTextToScript (wordsOf demoScript) 2 ("zzz".toList) = 2 := by
  refine ⟨by decide, ?_⟩
  exact cursor_monotone.2.2 (wordsOf demoScript) 2 ("zzz".toList) (by decide)

/-- C3 (counterexample): at a gap of exactly 100 ms (stored timestamp 1000,
qualifying peak at 1100) the claim's reading fires the trigger and resets
the timestamp, but the code debounces the transient (its guard is
`now - last > 100`), leaving the timestamp at 1000 and firing nothing. -/
theorem clap_boundary_counterexample :
    clapStep true 1 1100 1000 = (1000, false) ∧
    clapStepClaim true 1 1100 1000 = (0, true) := by
  exact ⟨by decide, by decide⟩

/-- C3 (amended): a qualifying transient (enabled, peak > 0.6) occurring
100 ms or less after the stored timestamp is ignored; one occurring more
than 100 and less than 800 ms after it fires the trigger and resets the
timestamp to zero; otherwise its time becomes the new stored timestamp.
The scenarios hold: peaks at 0 and 500 ms fire exactly one trigger, peaks
at 0 and 50 ms are not two distinct transients (no fire, timestamp still
0), and peaks at 0 and 900 ms fire nothing but re-arm, so a following peak
at 1300 ms completes a pair. -/
theorem clap_trigger_behaviour :
    (∀ (enabled : Bool) (peak : ℚ) (now last : ℤ),
      clapStep enabled peak now last = clapStepAmended enabled peak now last) ∧
    clapRun [(0, 1), (500, 1)] = (0, 1) ∧
    clapRun [(0, 1), (50, 1)] = (0, 0) ∧
    clapRun [(0, 1), (900, 1)] = (900, 0) ∧
    clapRun [(0, 1), (900, 1), (1300, 1)] = (0, 1) := by
  refine ⟨fun enabled peak now last => ?_, by decide, by decide, by decide, by decide⟩
  unfold clapStep clapStepAmended
  split_ifs <;> first | rfl | omega

/-- C9 (counterexample): the recorder-error handler runs the stop path but
surfaces nothing to the user — its only user-visible channel, the blocking
alert (used by the start-failure path), stays empty; the error goes to the
developer console alone. -/
theorem recorder_error_not_surfaced :
    (onRecorderError ⟨false, true, true⟩).1 = stopRecording ⟨false, true, true⟩ ∧
    (onRecorderError ⟨false, true, true⟩).2.alerts = [] := by
  exact ⟨rfl, rfl⟩

/-- C9 (amended): a recorder error mid-recording triggers exactly the stop
path of a user-initiated stop — recorder stopped, recording flag cleared,
duration timer cancelled — and the error is logged to the console but not
surfaced to the user (no alert). -/
theorem recorder_error_stop_path :
    ∀ st : RecorderSession,
      (onRecorderError st).1 = stopRecording st ∧
      (onRecorderError st).1.recorderInactive = true ∧
      (onRecorderError st).1.isRecording = false ∧
      (onRecorderError st).1.timerActive = false ∧
      (onRecorderError st).2.consoleMsgs ≠ [] ∧
      (onRecorderError st).2.alerts = [] := by
  intro st
  exact ⟨rfl, rfl, rfl, rfl, by simp [onRecorderError], rfl⟩

/-- C2 (counterexample): editing the script text does not reset the
alignment cursor — after an edit at cursor 2 the cursor is still 2, not
0 (the `onChange` handler only stores the new text). -/
theorem edit_does_not_reset_cursor :
    (editScript ⟨demoScript, 2⟩ ("a new script".toList)).cursor = 2 ∧
    (2 : ℕ) ≠ 0 := by
  exact ⟨rfl, by decide⟩

/-- C8: when recording stops with a shot selected, the filename is the
shot's name with whitespace replaced by underscores followed by `_Take{N}`
for that shot's current take counter, and that shot's counter is
incremented while every other shot is unchanged; with no shot selected the
filename is `A6000_REC_{YYYYMMDD_HHMM}`.  In particular "Intro Scene" at
take 1 yields "Intro_Scene_Take1" and the stored take becomes 2. -/
theorem filename_policy :
    (∀ (shots : List Shot) (sid : String) (shot : Shot) (now : JsDate),
      shots.find? (fun s => (some sid : Option String) == some s.id) = some shot →
      (recFilename shots (some sid) now).1 =
          replaceWs shot.name ++ "_Take" ++ toString shot.take ∧
      (recFilename shots (some sid) now).2 =
          shots.map (fun s => if s.id == shot.id then { s with take := s.take + 1 } else s) ∧
      (∀ s ∈ shots, s.id ≠ shot.id → s ∈ (recFilename shots (some sid) now).2)) ∧
    (∀ (shots : List Shot) (now : JsDate),
      recFilename shots Option.none now = ("A6000_REC" ++ "_" ++ slateTimestamp now, shots)) ∧
    recFilename [⟨"1", "Intro Scene", false, 1⟩] (some "1") ⟨2026, 9, 11, 14, 5⟩ =
      ("Intro_Scene_Take1", [⟨"1", "Intro Scene", false, 2⟩]) ∧
    slateTimestamp ⟨2026, 9, 11, 14, 5⟩ = "20261011_1405" := by
  refine ⟨fun shots sid shot now hfind => ?_, fun shots now => ?_, by decide, by decide⟩
  · unfold recFilename
    rw [hfind]
    refine ⟨rfl, rfl, fun s hs hne => ?_⟩
    have : (if s.id == shot.id then { s with take := s.take + 1 } else s) = s := by
      rw [if_neg (by simpa using hne)]
    exact this ▸ List.mem_map_of_mem _ hs
  · unfold recFilename
    rw [List.find?_eq_none.mpr (by intro s _; simp)]

/-- Witness for C8: the selected-shot branch applied to the one-shot list
containing "Intro Scene" at take 1. -/
theorem filename_policy_witness :
    ([⟨"1", "Intro Scene", false, 1⟩] : List Shot).find?
        (fun s => (some "1" : Option String) == some s.id) =
      some ⟨"1", "Intro Scene", false, 1⟩ ∧
    (recFilename [⟨"1", "Intro Scene", false, 1⟩] (some "1") ⟨2026, 9, 11, 14, 5⟩).1 =
      replaceWs "Intro Scene" ++ "_Take" ++ toString (1 : ℕ) := by
  refine ⟨by decide, ?_⟩
  exact (filename_policy.1 [⟨"1", "Intro Scene", false, 1⟩] "1"
    ⟨"1", "Intro Scene", false, 1⟩ ⟨2026, 9, 11, 14, 5⟩ (by decide)).1

theorem any_nonWs_of_wsFree (w : List Char) (h : ∀ c ∈ w, c.isWhitespace = false) :
    (w.any fun c => !c.isWhitespace) = !w.isEmpty := by
  cases w with
  | nil => rfl
  | cons c cs =>
    simp only [List.any_cons, List.isEmpty_cons, Bool.not_false]
    rw [h c (by simp)]
    simp

theorem any_nonWs_of_allWs (w : List Char) (h : ∀ c ∈ w, c.isWhitespace = true) :
    (w.any fun c => !c.isWhitespace) = false := by
  simp only [List.any_eq_false, Bool.not_eq_true]
  intro c hc
  simp [h c hc]

theorem splitCapAux_filter (cs : List Char) :
    (∀ acc, (∀ c ∈ acc, c.isWhitespace = false) →
      (splitCapAux false acc cs).filter (fun w => w.any fun c => !c.isWhitespace) =
        ((cs.splitOnP Char.isWhitespace).modifyHead (acc.reverse ++ ·)).filter
          (fun w => !w.isEmpty)) ∧
    (∀ acc, (∀ c ∈ acc, c.isWhitespace = true) →
      (splitCapAux true acc cs).filter (fun w => w.any fun c => !c.isWhitespace) =
        (cs.splitOnP Char.isWhitespace).filter (fun w => !w.isEmpty)) := by
  induction cs with
  | nil =>
    constructor
    · intro acc hacc
      have hq : (acc.reverse.any fun c => !c.isWhitespace) = !acc.reverse.isEmpty :=
        any_nonWs_of_wsFree _ (fun c hc => hacc c (List.mem_reverse.mp hc))
      simp only [splitCapAux, List.splitOnP_nil, List.modifyHead_cons, List.append_nil,
        List.filter, hq]
      simp
    · intro acc hacc
      have hq : (acc.reverse.any fun c => !c.isWhitespace) = false :=
        any_nonWs_of_allWs _ (fun c hc => hacc c (List.mem_reverse.mp hc))
      simp only [splitCapAux, List.splitOnP_nil, List.filter, hq]
      rfl
  | cons c cs ih =>
    have hext : ∀ (b : Bool) (acc : List Char), (∀ x ∈ acc, x.isWhitespace = b) →
        c.isWhitespace = b → ∀ x ∈ c :: acc, x.isWhitespace = b := by
      intro b acc hacc hc x hx
      rcases List.mem_cons.mp hx with h | h
      · rw [h]; exact hc
      · exact hacc x h
    constructor
    · intro acc hacc
      rcases hc : c.isWhitespace with _ | _
      · -- c is not whitespace: keep extending the current word run
        have hstep : splitCapAux false acc (c :: cs) = splitCapAux false (c :: acc) cs := by
          simp [splitCapAux, hc]
        rw [hstep, ih.1 (c :: acc) (hext false acc hacc hc)]
        rw [List.splitOnP_cons, if_neg (by simp [hc]), List.modifyHead_modifyHead]
        have hfun : ((acc.reverse ++ ·) ∘ (c :: ·)) = ((c :: acc).reverse ++ ·) := by
          funext x
          simp
        rw [hfun]
      · -- c is whitespace: close the word run, open a whitespace run
        have hstep : splitCapAux false acc (c :: cs) =
            acc.reverse :: splitCapAux true [c] cs := by
          simp [splitCapAux, hc]
        have hq : (acc.reverse.any fun x => !x.isWhitespace) = !acc.reverse.isEmpty :=
          any_nonWs_of_wsFree _ (fun x hx => hacc x (List.mem_reverse.mp hx))
        rw [hstep, List.splitOnP_cons, if_pos hc, List.modifyHead_cons, List.append_nil,
          List.filter_cons, List.filter_cons, hq, ih.2 [c] (by simp [hc])]
    · intro acc hacc
      rcases hc : c.isWhitespace with _ | _
      · -- c is not whitespace: close the whitespace run, open a word run
        have hstep : splitCapAux true acc (c :: cs) =
            acc.reverse :: splitCapAux false [c] cs := by
          simp [splitCapAux, hc]
        have hq : (acc.reverse.any fun x => !x.isWhitespace) = false :=
          any_nonWs_of_allWs _ (fun x hx => hacc x (List.mem_reverse.mp hx))
        rw [hstep, List.filter_cons, hq, if_neg (by simp)]
        rw [ih.1 [c] (by simp [hc])]
        rw [List.splitOnP_cons, if_neg (by simp [hc])]
        rfl
      · -- c is whitespace: keep extending the whitespace run
        have hstep : splitCapAux true acc (c :: cs) = splitCapAux true (c :: acc) cs := by
          simp [splitCapAux, hc]
        rw [hstep, ih.2 (c :: acc) (hext true acc hacc hc)]
        rw [List.splitOnP_cons, if_pos hc, List.filter_cons]
        simp

/-- C2 (amended): every edit of the script text stores the new text and
leaves the alignment cursor unchanged (it is not reset to 0), and the
derived token sequence is exactly the split of the text on whitespace with
empty tokens discarded. -/
theorem edit_and_tokenization :
    (∀ (s : ScriptState) (t : List Char),
      (editScript s t).text = t ∧ (editScript s t).cursor = s.cursor) ∧
    (∀ t : List Char, wordsOf t = tokensSpec t) := by
  refine ⟨fun s t => ⟨rfl, rfl⟩, fun t => ?_⟩
  have h := (splitCapAux_filter t).1 [] (by simp)
  unfold wordsOf splitCap tokensSpec
  rw [h]
  have : (List.nil.reverse ++ · : List Char → List Char) = id := by
    funext x
    simp
  rw [this, List.modifyHead_id]
  rfl

theorem vaStep_rise (T : ℚ) (f : ℕ × ℚ) (hf : T < f.2) :
    vaStep T ⟨false, Option.none⟩ f = (⟨true, Option.none⟩, [(f.1, true)]) := by
  simp [vaStep, vaExpire, vaFrame, hf]

theorem vaStep_arm (T : ℚ) (f : ℕ × ℚ) (hf : f.2 ≤ T) :
    vaStep T ⟨true, Option.none⟩ f = (⟨true, some (f.1 + 600)⟩, []) := by
  simp [vaStep, vaExpire, vaFrame, not_lt.mpr hf]

theorem vaFold_append (T : ℚ) (init : VAState × List (ℕ × Bool))
    (l₁ l₂ : List (ℕ × ℚ)) :
    vaFold T init (l₁ ++ l₂) = vaFold T (vaFold T init l₁) l₂ := by
  unfold vaFold
  rw [List.foldl_append]

theorem vaFold_cons (T : ℚ) (init : VAState × List (ℕ × Bool))
    (f : ℕ × ℚ) (L : List (ℕ × ℚ)) :
    vaFold T init (f :: L) =
      vaFold T ((vaStep T init.1 f).1, init.2 ++ (vaStep T init.1 f).2) L := rfl

theorem vaFold_below_idle (T : ℚ) (L : List (ℕ × ℚ)) (hL : ∀ f ∈ L, f.2 ≤ T)
    (es : List (ℕ × Bool)) :
    vaFold T (⟨false, Option.none⟩, es) L = (⟨false, Option.none⟩, es) := by
  induction L generalizing es with
  | nil => rfl
  | cons f L ih =>
    rw [vaFold_cons]
    have hstep : vaStep T ⟨false, Option.none⟩ f = (⟨false, Option.none⟩, []) := by
      simp [vaStep, vaExpire, vaFrame, not_lt.mpr (hL f (by simp))]
    rw [hstep]
    simp only [List.append_nil]
    exact ih (fun g hg => hL g (by simp [hg])) es

theorem vaFold_above_active (T : ℚ) (L : List (ℕ × ℚ)) (hL : ∀ f ∈ L, T < f.2)
    (es : List (ℕ × Bool)) :
    vaFold T (⟨true, Option.none⟩, es) L = (⟨true, Option.none⟩, es) := by
  induction L generalizing es with
  | nil => rfl
  | cons f L ih =>
    rw [vaFold_cons]
    have hstep : vaStep T ⟨true, Option.none⟩ f = (⟨true, Option.none⟩, []) := by
      simp [vaStep, vaExpire, vaFrame, hL f (by simp)]
    rw [hstep]
    simp only [List.append_nil]
    exact ih (fun g hg => hL g (by simp [hg])) es

theorem vaFold_below_pending (T : ℚ) (L : List (ℕ × ℚ)) (hL : ∀ f ∈ L, f.2 ≤ T)
    (es : List (ℕ × Bool)) (d : ℕ) :
    vaFold T (⟨true, some d⟩, es) L = (⟨true, some d⟩, es) ∨
      vaFold T (⟨true, some d⟩, es) L = (⟨false, Option.none⟩, es ++ [(d, false)]) := by
  induction L generalizing es with
  | nil => exact Or.inl rfl
  | cons f L ih =>
    rw [vaFold_cons]
    by_cases hdue : d ≤ f.1
    · have hstep : vaStep T ⟨true, some d⟩ f = (⟨false, Option.none⟩, [(d, false)]) := by
        simp [vaStep, vaExpire, vaFrame, hdue, not_lt.mpr (hL f (by simp))]
      rw [hstep]
      exact Or.inr (vaFold_below_idle T L (fun g hg => hL g (by simp [hg])) _)
    · have hstep : vaStep T ⟨true, some d⟩ f = (⟨true, some d⟩, []) := by
        simp [vaStep, vaExpire, vaFrame, hdue, not_lt.mpr (hL f (by simp))]
      rw [hstep]
      simp only [List.append_nil]
      exact ih (fun g hg => hL g (by simp [hg])) es

/-- C4: in volume mode with sensitivity in [1,100] and threshold
55 − 0.4·sensitivity, an energy trace that sits at or below the threshold,
crosses above it for a nonempty block of frames, and then stays at or below
it produces exactly two edges: one rising edge, immediately at the first
above-threshold frame, and one falling edge at 600 ms after the first
at-or-below frame that follows the block — hence no sooner than 600 ms
after the last sample above the threshold. -/
theorem voice_activity_edges (s : ℚ) (hs : 1 ≤ s ∧ s ≤ 100)
    (A B' C' : List (ℕ × ℚ)) (b c : ℕ × ℚ)
    (hA : ∀ f ∈ A, f.2 ≤ vaThreshold s)
    (hB : ∀ f ∈ b :: B', vaThreshold s < f.2)
    (hC : ∀ f ∈ c :: C', f.2 ≤ vaThreshold s)
    (htime : ∀ f ∈ b :: B', f.1 ≤ c.1) :
    vaRun (vaThreshold s) (A ++ (b :: B') ++ (c :: C')) =
      [(b.1, true), (c.1 + 600, false)] ∧
    (∀ f ∈ b :: B', f.1 + 600 ≤ c.1 + 600) := by
  refine ⟨?_, fun f hf => by have := htime f hf; omega⟩
  unfold vaRun
  rw [vaFold_append, vaFold_append]
  rw [vaFold_below_idle _ A hA]
  rw [vaFold_cons _ _ b B']
  dsimp only
  rw [vaStep_rise _ b (hB b (by simp))]
  dsimp only
  rw [List.nil_append]
  rw [vaFold_above_active _ B' (fun g hg => hB g (by simp [hg]))]
  rw [vaFold_cons _ _ c C']
  dsimp only
  rw [vaStep_arm _ c (hC c (by simp))]
  dsimp only
  rw [List.append_nil]
  rcases vaFold_below_pending (vaThreshold s) C'
      (fun g hg => hC g (by simp [hg])) [(b.1, true)] (c.1 + 600) with h | h
  · rw [h]
    rfl
  · rw [h]
    rfl

/-- Witness for C4: sensitivity 20, one below frame at 0 ms, one above
frame at 16 ms, one below frame at 32 ms: the rising edge is at 16 ms, the
falling edge at 632 ms. -/
theorem voice_activity_edges_witness :
    vaRun (vaThreshold 20)
        ([(0, vaThreshold 20 - 1)] ++ ((16, vaThreshold 20 + 1) :: []) ++
          ((32, vaThreshold 20 - 1) :: [])) =
      [(16, true), (32 + 600, false)] :=
  (voice_activity_edges 20 ⟨by decide, by decide⟩
    [(0, vaThreshold 20 - 1)] [] [] (16, vaThreshold 20 + 1) (32, vaThreshold 20 - 1)
    (by
      intro f hf
      rw [List.mem_singleton.mp hf]
      exact sub_le_self _ (by decide))
    (by
      intro f hf
      rw [List.mem_singleton.mp hf]
      exact lt_add_of_pos_right _ (by decide))
    (by
      intro f hf
      rw [List.mem_singleton.mp hf]
      exact sub_le_self _ (by decide))
    (by
      intro f hf
      rw [List.mem_singleton.mp hf]
      decide)).1

end A6000
